import Mathlib

/-!
Verification of the aggregation and filtering core of an e-commerce sales
dashboard (`src/dashboard/app.py`).

The table is embedded as a `List Row`.  Timestamps are seconds since the
epoch (`Nat`); the calendar date of a timestamp is its day index
(`dateOf`), and the calendar month is obtained through the standard civil
calendar conversion (`civilFromDays`).  Monetary amounts are embedded as
exact integers.  Identifiers (order, customer, state, category) are
embedded as naturals; pandas `groupby` sorts its keys, which the embedding
mirrors with `List.insertionSort` over deduplicated keys.  `resample` with
a daily or monthly rule produces one bucket per calendar unit between the
minimum and maximum key, including empty units, in ascending order, which
`resampleAgg` mirrors.
-/

namespace Dashboard

/-- One row of the loaded order table (`load_data`): the columns the
aggregators read.  `order_purchase_timestamp` is seconds since the epoch. -/
structure Row where
  order_id : Nat
  order_purchase_timestamp : Nat
  order_status : String
  customer_id : Nat
  customer_state : Nat
  product_category_name_english : Nat
  qty_order : Int
  payment_value : Int
  deriving DecidableEq

/-- Calendar date (day index) of a timestamp, as `.dt.date` truncation. -/
def dateOf (ts : Nat) : Nat := ts / 86400

/-- Civil-calendar conversion of a day index to (year, month, day),
days counted from 1970-01-01. -/
def civilFromDays (z : Int) : Int × Int × Int :=
  let z2 := z + 719468
  let era := (if 0 ≤ z2 then z2 else z2 - 146096) / 146097
  let doe := z2 - era * 146097
  let yoe := (doe - doe / 1460 + doe / 36524 - doe / 146096) / 365
  let y := yoe + era * 400
  let doy := doe - (365 * yoe + yoe / 4 - yoe / 100)
  let mp := (5 * doy + 2) / 153
  let d := doy - (153 * mp + 2) / 5 + 1
  let m := mp + (if mp < 10 then 3 else (-9 : Int))
  (y + (if m ≤ 2 then 1 else 0), m, d)

/-- Month index (year * 12 + month) of the calendar month containing a
timestamp: the `'M'` resampling key. -/
def monthIdxOf (ts : Nat) : Nat :=
  let c := civilFromDays (Int.ofNat (dateOf ts))
  (c.1 * 12 + c.2.1).toNat

/-- Sum of the `payment_value` column over a list of rows. -/
def sumPay (rows : List Row) : Int :=
  (rows.map (fun r => r.payment_value)).sum

/-- Number of distinct order identifiers in a list of rows
(pandas `nunique`). -/
def nuniqueOrders (rows : List Row) : Nat :=
  ((rows.map (fun r => r.order_id)).dedup).length

/-- One row of a resampled aggregate: the bucket key (day index for the
daily rule, month index for the monthly rule), the distinct order count
and the payment sum of the bucket. -/
structure Bucket where
  bucket_key : Nat
  order_id_nunique : Nat
  payment_value_sum : Int
  deriving DecidableEq

/-- Smallest bucket key occurring in `rows` (0 on the empty list,
which `resampleAgg` never consults). -/
def minKey (key : Row → Nat) : List Row → Nat
  | [] => 0
  | r :: rs => (rs.map key).foldl Nat.min (key r)

/-- Largest bucket key occurring in `rows`. -/
def maxKey (key : Row → Nat) (rows : List Row) : Nat :=
  (rows.map key).foldl Nat.max 0

/-- All bucket keys emitted by `resample`: every calendar unit from the
minimum key to the maximum key, in ascending order; none on an empty
frame. -/
def bucketKeys (key : Row → Nat) (rows : List Row) : List Nat :=
  match rows with
  | [] => []
  | _ :: _ =>
      (List.range (maxKey key rows + 1 - minKey key rows)).map
        (fun i => minKey key rows + i)

/-- `df.resample(rule, on='order_purchase_timestamp').agg({'order_id':
'nunique', 'payment_value': 'sum'})`, parameterised by the bucket key. -/
def resampleAgg (key : Row → Nat) (rows : List Row) : List Bucket :=
  (bucketKeys key rows).map (fun b =>
    let bs := rows.filter (fun r => decide (key r = b))
    { bucket_key := b
      order_id_nunique := nuniqueOrders bs
      payment_value_sum := sumPay bs })

/-- `create_daily_orders`: daily resample of distinct order count and
payment sum. -/
def create_daily_orders (rows : List Row) : List Bucket :=
  resampleAgg (fun r => dateOf r.order_purchase_timestamp) rows

/-- `create_monthly_orders`: monthly resample of distinct order count and
payment sum. -/
def create_monthly_orders (rows : List Row) : List Bucket :=
  resampleAgg (fun r => monthIdxOf r.order_purchase_timestamp) rows

/-- The date-range stage of `filter_data`: rows whose purchase date lies
in the inclusive range. -/
def date_filter (rows : List Row) (start_date end_date : Nat) : List Row :=
  rows.filter (fun r =>
    decide (start_date ≤ dateOf r.order_purchase_timestamp) &&
    decide (dateOf r.order_purchase_timestamp ≤ end_date))

/-- `filter_data`: date-range filter followed, when the selection differs
from the `"ALL"` sentinel, by an order-status equality filter. -/
def filter_data (rows : List Row) (start_date end_date : Nat)
    (selected : String) : List Row :=
  if selected ≠ "ALL" then
    (date_filter rows start_date end_date).filter
      (fun r => decide (r.order_status = selected))
  else
    date_filter rows start_date end_date

/-- `create_best_worst_categories`: group by product category (pandas
`groupby` sorts the keys) and sum the quantity ordered. -/
def create_best_worst_categories (rows : List Row) : List (Nat × Int) :=
  let keys := List.insertionSort (fun a b => a ≤ b)
    ((rows.map (fun r => r.product_category_name_english)).dedup)
  keys.map (fun c =>
    (c, ((rows.filter (fun r =>
            decide (r.product_category_name_english = c))).map
          (fun r => r.qty_order)).sum))

/-- One row of the RFM aggregate. -/
structure RfmRec where
  customer_id : Nat
  recency : Nat
  frequency : Nat
  monetary : Int
  numeric_id : Nat
  deriving DecidableEq

/-- Largest purchase timestamp in a list of rows (`now` in
`create_rfm_analysis`). -/
def maxTs (rows : List Row) : Nat :=
  (rows.map (fun r => r.order_purchase_timestamp)).foldl Nat.max 0

/-- The rows of one customer. -/
def custRows (rows : List Row) (c : Nat) : List Row :=
  rows.filter (fun r => decide (r.customer_id = c))

/-- The grouped RFM records, one per key, enumerated from `i` (the
`pd.factorize(...) + 1` labelling of the grouped, hence key-sorted,
frame). -/
def rfmEntries (rows : List Row) (now : Nat) : Nat → List Nat → List RfmRec
  | _, [] => []
  | i, c :: cs =>
      { customer_id := c
        recency := (now - maxTs (custRows rows c)) / 86400
        frequency := (custRows rows c).length
        monetary := sumPay (custRows rows c)
        numeric_id := i } :: rfmEntries rows now (i + 1) cs

/-- `create_rfm_analysis`: group by customer identifier (keys sorted by
`groupby`); recency is the day count of `now - max(ts)` per customer,
frequency the row count, monetary the payment sum; `numeric_id` is the
1-based position in the grouped frame. -/
def create_rfm_analysis (rows : List Row) : List RfmRec :=
  match rows with
  | [] => []
  | _ :: _ =>
      rfmEntries rows (maxTs rows) 1
        (List.insertionSort (fun a b => a ≤ b)
          ((rows.map (fun r => r.customer_id)).dedup))

/-- `create_geoanalysis`: group by customer state, sum payment values,
and sort ascending by the sum. -/
def create_geoanalysis (rows : List Row) : List (Nat × Int) :=
  let keys := List.insertionSort (fun a b => a ≤ b)
    ((rows.map (fun r => r.customer_state)).dedup)
  List.insertionSort (fun a b => a.2 ≤ b.2)
    (keys.map (fun s =>
      (s, sumPay (rows.filter (fun r => decide (r.customer_state = s))))))

/-- The `Total Orders` metric of `display_order_stats`:
`df['order_id'].nunique()`. -/
def total_orders (rows : List Row) : Nat :=
  ((rows.map (fun r => r.order_id)).dedup).length

/-- The `Total Revenue` metric of `display_order_stats`:
`df['payment_value'].sum()`. -/
def total_revenue (rows : List Row) : Int := sumPay rows

/-- First-occurrence deduplication: the distinct elements of a list in
first-seen order (used to state the spec-side display-label claim). -/
def firstSeen : List Nat → List Nat
  | [] => []
  | a :: t => a :: (firstSeen t).filter (fun b => decide (¬ b = a))

/-- Example rows used to instantiate hypotheses of the theorems below. -/
def exR1 : Row := ⟨1, 0, "delivered", 2, 1, 1, 1, 10⟩

def exR2 : Row := ⟨1, 90000, "delivered", 1, 2, 1, 1, 20⟩

def exR3 : Row := ⟨2, 200000, "shipped", 1, 1, 2, 2, 30⟩

def exRows : List Row := [exR1, exR2, exR3]

theorem le_foldl_max (l : List Nat) (a : Nat) : a ≤ l.foldl Nat.max a := by
  induction l generalizing a with
  | nil => exact Nat.le_refl a
  | cons b t ih => exact Nat.le_trans (Nat.le_max_left a b) (ih (Nat.max a b))

theorem mem_le_foldl_max {x : Nat} (l : List Nat) (a : Nat) (hx : x ∈ l) :
    x ≤ l.foldl Nat.max a := by
  induction l generalizing a with
  | nil => cases hx
  | cons b t ih =>
      rcases List.mem_cons.mp hx with h | h
      · subst h; exact Nat.le_trans (Nat.le_max_right a x) (le_foldl_max t _)
      · exact ih _ h

theorem foldl_max_le {c : Nat} (l : List Nat) (a : Nat) (ha : a ≤ c)
    (h : ∀ x ∈ l, x ≤ c) : l.foldl Nat.max a ≤ c := by
  induction l generalizing a with
  | nil => exact ha
  | cons b t ih =>
      exact ih _ (Nat.max_le.mpr ⟨ha, h b (List.mem_cons_self b t)⟩)
        (fun x hx => h x (List.mem_cons_of_mem b hx))

theorem foldl_min_le (l : List Nat) (a : Nat) : l.foldl Nat.min a ≤ a := by
  induction l generalizing a with
  | nil => exact Nat.le_refl a
  | cons b t ih => exact Nat.le_trans (ih (Nat.min a b)) (Nat.min_le_left a b)

theorem foldl_min_le_mem {x : Nat} (l : List Nat) (a : Nat) (hx : x ∈ l) :
    l.foldl Nat.min a ≤ x := by
  induction l generalizing a with
  | nil => cases hx
  | cons b t ih =>
      rcases List.mem_cons.mp hx with h | h
      · subst h
        exact Nat.le_trans (foldl_min_le t _) (Nat.min_le_right a x)
      · exact ih _ h

theorem minKey_le {key : Row → Nat} {rows : List Row} {r : Row}
    (hr : r ∈ rows) : minKey key rows ≤ key r := by
  cases rows with
  | nil => cases hr
  | cons r0 rs =>
      rcases List.mem_cons.mp hr with h | h
      · subst h; exact foldl_min_le _ _
      · exact foldl_min_le_mem _ _ (List.mem_map_of_mem key h)

theorem le_maxKey {key : Row → Nat} {rows : List Row} {r : Row}
    (hr : r ∈ rows) : key r ≤ maxKey key rows :=
  mem_le_foldl_max _ _ (List.mem_map_of_mem key hr)

theorem mem_bucketKeys {key : Row → Nat} {rows : List Row} {r : Row}
    (hr : r ∈ rows) : key r ∈ bucketKeys key rows := by
  cases rows with
  | nil => cases hr
  | cons r0 rs =>
      have h1 : minKey key (r0 :: rs) ≤ key r := minKey_le hr
      have h2 : key r ≤ maxKey key (r0 :: rs) := le_maxKey hr
      unfold bucketKeys
      refine List.mem_map.mpr ⟨key r - minKey key (r0 :: rs), ?_, ?_⟩
      · exact List.mem_range.mpr (by omega)
      · omega

theorem nodup_bucketKeys (key : Row → Nat) (rows : List Row) :
    (bucketKeys key rows).Nodup := by
  cases rows with
  | nil => exact List.nodup_nil
  | cons r0 rs =>
      exact (List.nodup_range _).map (fun i j h => by omega)

theorem pairwise_lt_bucketKeys (key : Row → Nat) (rows : List Row) :
    (bucketKeys key rows).Pairwise (fun a b => a < b) := by
  cases rows with
  | nil => exact List.Pairwise.nil
  | cons r0 rs =>
      unfold bucketKeys
      refine List.pairwise_map.mpr ?_
      exact (List.pairwise_lt_range _).imp (fun h => by omega)

theorem sum_map_update (f g : Nat → Int) (a : Nat) (d : Int) :
    ∀ ks : List Nat, ks.Nodup → a ∈ ks → f a = d + g a →
      (∀ k ∈ ks, k ≠ a → f k = g k) →
      (ks.map f).sum = d + (ks.map g).sum := by
  intro ks
  induction ks with
  | nil => intro _ ha; cases ha
  | cons k t ih =>
      intro hnd ha hfa hother
      rcases List.nodup_cons.mp hnd with ⟨hkt, hndt⟩
      rcases List.mem_cons.mp ha with h | h
      · subst h
        have ht : t.map f = t.map g := by
          apply List.map_congr_left
          intro x hx
          exact hother x (List.mem_cons_of_mem _ hx) (fun he => hkt (he ▸ hx))
        simp only [List.map_cons, List.sum_cons, ht, hfa]
        omega
      · have hka : k ≠ a := fun he => hkt (he ▸ h)
        have hrec := ih hndt h hfa
          (fun x hx hxa => hother x (List.mem_cons_of_mem _ hx) hxa)
        simp only [List.map_cons, List.sum_cons, hrec,
          hother k (List.mem_cons_self _ _) hka]
        omega

theorem sum_filter_partition (key : Row → Nat) (ks : List Nat)
    (hnd : ks.Nodup) :
    ∀ rows : List Row, (∀ r ∈ rows, key r ∈ ks) →
      (ks.map (fun k =>
        sumPay (rows.filter (fun r => decide (key r = k))))).sum
        = sumPay rows := by
  intro rows
  induction rows with
  | nil => intro _; simp [sumPay]
  | cons r rs ih =>
      intro hmem
      have hr : key r ∈ ks := hmem r (List.mem_cons_self _ _)
      have hstep := sum_map_update
        (fun k => sumPay ((r :: rs).filter (fun x => decide (key x = k))))
        (fun k => sumPay (rs.filter (fun x => decide (key x = k))))
        (key r) r.payment_value ks hnd hr ?_ ?_
      · rw [hstep, ih (fun x hx => hmem x (List.mem_cons_of_mem _ hx))]
        simp [sumPay]
      · simp [List.filter_cons, sumPay]
      · intro k _ hne
        have hne2 : ¬ (key r = k) := fun hh => hne hh.symm
        simp [List.filter_cons, hne2]

/-- C1: for every input table, valid date range and status selection,
every row of `filter_data` has a purchase date inside the inclusive range
and, when the selection is not `"ALL"`, the selected status; and the
output has at most as many rows as the input. -/
theorem filter_data_spec (rows : List Row) (s e : Nat) (sel : String)
    (hrange : s ≤ e) :
    (filter_data rows s e sel).length ≤ rows.length ∧
    ∀ r ∈ filter_data rows s e sel,
      (s ≤ dateOf r.order_purchase_timestamp ∧
       dateOf r.order_purchase_timestamp ≤ e) ∧
      (sel ≠ "ALL" → r.order_status = sel) := by
  constructor
  · unfold filter_data
    by_cases hsel : sel = "ALL"
    · rw [if_neg (not_not_intro hsel)]
      exact List.length_filter_le _ _
    · rw [if_pos hsel]
      exact Nat.le_trans (List.length_filter_le _ _)
        (List.length_filter_le _ _)
  · intro r hr
    by_cases hsel : sel = "ALL"
    · subst hsel
      simp only [filter_data, date_filter, ne_eq, not_true_eq_false,
        if_false, List.mem_filter, Bool.and_eq_true, decide_eq_true_eq] at hr
      exact ⟨⟨hr.2.1, hr.2.2⟩, fun h => absurd rfl h⟩
    · simp only [filter_data, date_filter, ne_eq, hsel, not_false_iff,
        if_true, List.mem_filter, Bool.and_eq_true, decide_eq_true_eq] at hr
      exact ⟨⟨hr.1.2.1, hr.1.2.2⟩, fun _ => hr.2⟩

/-- Witness for C1 at a concrete table, range and status. -/
theorem filter_data_spec_witness :
    (filter_data exRows 0 1 "delivered").length ≤ exRows.length :=
  (filter_data_spec exRows 0 1 "delivered" (by decide)).1

/-- C6: every aggregator returns the empty aggregate table on the empty
filtered view. -/
theorem aggregators_empty_on_empty_view :
    create_daily_orders [] = [] ∧ create_monthly_orders [] = [] ∧
    create_best_worst_categories [] = [] ∧ create_rfm_analysis [] = [] ∧
    create_geoanalysis [] = [] :=
  ⟨rfl, rfl, rfl, rfl, rfl⟩

/-- C7: with the `"ALL"` selection, `filter_data` returns exactly the
rows selected by the date-range predicate alone, so in particular the two
row counts agree. -/
theorem filter_data_all_eq_date_filter (rows : List Row) (s e : Nat) :
    filter_data rows s e "ALL" = date_filter rows s e ∧
    (filter_data rows s e "ALL").length = (date_filter rows s e).length := by
  constructor <;> simp [filter_data]

/-- C10: when the start date exceeds the end date, `filter_data` returns
the empty view for every table and status selection. -/
theorem filter_data_empty_of_start_gt_end (rows : List Row) (s e : Nat)
    (sel : String) (h : e < s) : filter_data rows s e sel = [] := by
  have hdate : date_filter rows s e = [] := by
    refine List.filter_eq_nil_iff.mpr ?_
    intro r _
    simp only [Bool.and_eq_true, decide_eq_true_eq, not_and]
    omega
  unfold filter_data
  rw [hdate]
  by_cases hsel : sel = "ALL" <;> simp [hsel]

/-- Witness for C10 at a concrete reversed range. -/
theorem filter_data_empty_of_start_gt_end_witness :
    filter_data exRows 5 2 "ALL" = [] :=
  filter_data_empty_of_start_gt_end exRows 5 2 "ALL" (by decide)

theorem resampleAgg_sum (key : Row → Nat) (rows : List Row) :
    ((resampleAgg key rows).map (fun b => b.payment_value_sum)).sum
      = sumPay rows := by
  unfold resampleAgg
  rw [List.map_map]
  exact sum_filter_partition key _ (nodup_bucketKeys key rows) rows
    (fun x hx => mem_bucketKeys hx)

/-- C2: the per-bucket payment sums of the daily and of the monthly
aggregation, summed over all buckets, equal the payment sum of the whole
filtered view. -/
theorem bucket_sums_preserve_total (rows : List Row) :
    ((create_daily_orders rows).map (fun b => b.payment_value_sum)).sum
      = sumPay rows ∧
    ((create_monthly_orders rows).map (fun b => b.payment_value_sum)).sum
      = sumPay rows :=
  ⟨resampleAgg_sum _ rows, resampleAgg_sum _ rows⟩

theorem resampleAgg_bucket_spec (key : Row → Nat) (rows : List Row) :
    ∀ b ∈ resampleAgg key rows,
      b.order_id_nunique =
        (((rows.filter (fun r => decide (key r = b.bucket_key))).map
          (fun r => r.order_id)).toFinset).card ∧
      b.payment_value_sum =
        sumPay (rows.filter (fun r => decide (key r = b.bucket_key))) := by
  intro b hb
  rcases List.mem_map.mp hb with ⟨k, _, hbk⟩
  subst hbk
  constructor
  · simp [nuniqueOrders, List.card_toFinset]
  · rfl

theorem resampleAgg_covers (key : Row → Nat) (rows : List Row) {r : Row}
    (hr : r ∈ rows) : ∃ b ∈ resampleAgg key rows, b.bucket_key = key r :=
  ⟨_, List.mem_map.mpr ⟨key r, mem_bucketKeys hr, rfl⟩, rfl⟩

theorem resampleAgg_sorted (key : Row → Nat) (rows : List Row) :
    ((resampleAgg key rows).map (fun b => b.bucket_key)).Pairwise
      (fun a b => a < b) := by
  unfold resampleAgg
  rw [List.map_map]
  exact List.pairwise_map.mpr (pairwise_lt_bucketKeys key rows)

/-- C4: both time-bucketed aggregations group rows by the purchase
timestamp truncated to the bucket granularity (calendar day, calendar
month), report per bucket the distinct order-identifier count and the
payment sum, and return the buckets in ascending key order; every row's
truncated timestamp is some returned bucket. -/
theorem resample_bucket_structure (rows : List Row) :
    (∀ b ∈ create_daily_orders rows,
      b.order_id_nunique = (((rows.filter (fun r =>
          decide (dateOf r.order_purchase_timestamp = b.bucket_key))).map
          (fun r => r.order_id)).toFinset).card ∧
      b.payment_value_sum = sumPay (rows.filter (fun r =>
          decide (dateOf r.order_purchase_timestamp = b.bucket_key)))) ∧
    ((create_daily_orders rows).map (fun b => b.bucket_key)).Pairwise
      (fun a b => a < b) ∧
    (∀ r ∈ rows, ∃ b ∈ create_daily_orders rows,
        b.bucket_key = dateOf r.order_purchase_timestamp) ∧
    (∀ b ∈ create_monthly_orders rows,
      b.order_id_nunique = (((rows.filter (fun r =>
          decide (monthIdxOf r.order_purchase_timestamp = b.bucket_key))).map
          (fun r => r.order_id)).toFinset).card ∧
      b.payment_value_sum = sumPay (rows.filter (fun r =>
          decide (monthIdxOf r.order_purchase_timestamp = b.bucket_key)))) ∧
    ((create_monthly_orders rows).map (fun b => b.bucket_key)).Pairwise
      (fun a b => a < b) ∧
    (∀ r ∈ rows, ∃ b ∈ create_monthly_orders rows,
        b.bucket_key = monthIdxOf r.order_purchase_timestamp) :=
  ⟨resampleAgg_bucket_spec _ rows, resampleAgg_sorted _ rows,
   fun _ hr => resampleAgg_covers _ rows hr,
   resampleAgg_bucket_spec _ rows, resampleAgg_sorted _ rows,
   fun _ hr => resampleAgg_covers _ rows hr⟩

/-- Witness for C4: the first daily bucket of the example table carries
the distinct order count of its rows. -/
theorem resample_bucket_structure_witness :
    (Bucket.mk 0 1 10) ∈ create_daily_orders exRows ∧
    (Bucket.mk 0 1 10).order_id_nunique = (((exRows.filter (fun r =>
        decide (dateOf r.order_purchase_timestamp
          = (Bucket.mk 0 1 10).bucket_key))).map
        (fun r => r.order_id)).toFinset).card := by
  have h := resample_bucket_structure exRows
  exact ⟨by decide, (h.1 (Bucket.mk 0 1 10) (by decide)).1⟩

/-- C5: when some order identifier occurs on more than one row, the
total-orders metric and the per-bucket counts are distinct-identifier
counts, and the metric is strictly below the raw row count. -/
theorem distinct_order_count_spec (rows : List Row)
    (hdup : ¬ (rows.map (fun r => r.order_id)).Nodup) :
    total_orders rows = ((rows.map (fun r => r.order_id)).toFinset).card ∧
    total_orders rows < rows.length ∧
    ∀ b ∈ create_daily_orders rows,
      b.order_id_nunique = (((rows.filter (fun r =>
        decide (dateOf r.order_purchase_timestamp = b.bucket_key))).map
        (fun r => r.order_id)).toFinset).card := by
  refine ⟨by simp [total_orders, List.card_toFinset], ?_, ?_⟩
  · have hsub := List.dedup_sublist (rows.map (fun r => r.order_id))
    have hle := hsub.length_le
    have hlenmap : (rows.map (fun r => r.order_id)).length = rows.length :=
      List.length_map _ _
    refine Nat.lt_of_le_of_ne (hlenmap ▸ hle) ?_
    intro heq
    apply hdup
    have heq2 : (rows.map (fun r => r.order_id)).dedup.length
        = (rows.map (fun r => r.order_id)).length := by
      rw [hlenmap]; exact heq
    have hed := hsub.eq_of_length heq2
    rw [← hed]
    exact List.nodup_dedup _
  · intro b hb
    exact (resampleAgg_bucket_spec _ rows b hb).1

/-- Witness for C5 on a table where order 1 occurs on two rows. -/
theorem distinct_order_count_spec_witness :
    total_orders exRows
        = ((exRows.map (fun r => r.order_id)).toFinset).card ∧
    total_orders exRows < exRows.length := by
  have h := distinct_order_count_spec exRows (by decide)
  exact ⟨h.1, h.2.1⟩

theorem rfmEntries_mem {rows : List Row} {now : Nat} :
    ∀ {i : Nat} {cs : List Nat} {en : RfmRec},
      en ∈ rfmEntries rows now i cs →
      en.customer_id ∈ cs ∧
      en.recency = (now - maxTs (custRows rows en.customer_id)) / 86400 ∧
      en.frequency = (custRows rows en.customer_id).length ∧
      en.monetary = sumPay (custRows rows en.customer_id) := by
  intro i cs
  induction cs generalizing i with
  | nil => intro en h; cases h
  | cons c t ih =>
      intro en h
      rcases List.mem_cons.mp h with h | h
      · subst h; exact ⟨List.mem_cons_self _ _, rfl, rfl, rfl⟩
      · rcases ih h with ⟨h1, h2, h3, h4⟩
        exact ⟨List.mem_cons_of_mem _ h1, h2, h3, h4⟩

theorem rfmEntries_covers {rows : List Row} {now : Nat} :
    ∀ (i : Nat) (cs : List Nat) (c : Nat), c ∈ cs →
      ∃ en ∈ rfmEntries rows now i cs, en.customer_id = c := by
  intro i cs
  induction cs generalizing i with
  | nil => intro c h; cases h
  | cons c0 t ih =>
      intro c h
      rcases List.mem_cons.mp h with h | h
      · subst h; exact ⟨_, List.mem_cons_self _ _, rfl⟩
      · rcases ih (i + 1) c h with ⟨en, hmem, hc⟩
        exact ⟨en, List.mem_cons_of_mem _ hmem, hc⟩

theorem maxTs_custRows_eq {rows : List Row} {r : Row} (hr : r ∈ rows)
    (hmax : r.order_purchase_timestamp = maxTs rows) :
    maxTs (custRows rows r.customer_id) = maxTs rows := by
  apply Nat.le_antisymm
  · apply foldl_max_le _ _ (Nat.zero_le _)
    intro x hx
    rcases List.mem_map.mp hx with ⟨q, hq, hqx⟩
    subst hqx
    exact mem_le_foldl_max _ _
      (List.mem_map_of_mem _ (List.mem_of_mem_filter hq))
  · rw [← hmax]
    apply mem_le_foldl_max
    apply List.mem_map_of_mem
    exact List.mem_filter.mpr ⟨hr, by simp⟩

/-- C3: on a non-empty view, `create_rfm_analysis` has one record per
customer of the view; each record's frequency is the customer's row
count, its monetary value the customer's payment sum, and its recency the
day count between the view-wide maximum purchase timestamp and the
customer's own maximum; a customer holding the most recent purchase has
recency 0. -/
theorem create_rfm_analysis_spec (rows : List Row) (hne : rows ≠ []) :
    (∀ en ∈ create_rfm_analysis rows,
      en.frequency = (custRows rows en.customer_id).length ∧
      en.monetary = sumPay (custRows rows en.customer_id) ∧
      en.recency =
        (maxTs rows - maxTs (custRows rows en.customer_id)) / 86400) ∧
    (∀ r ∈ rows, ∃ en ∈ create_rfm_analysis rows,
      en.customer_id = r.customer_id) ∧
    (∀ r ∈ rows, r.order_purchase_timestamp = maxTs rows →
      ∀ en ∈ create_rfm_analysis rows,
        en.customer_id = r.customer_id → en.recency = 0) := by
  match rows, hne with
  | r0 :: rs, _ =>
    refine ⟨?_, ?_, ?_⟩
    · intro en hen
      have h := rfmEntries_mem hen
      exact ⟨h.2.2.1, h.2.2.2, h.2.1⟩
    · intro r hr
      apply rfmEntries_covers
      have hm : r.customer_id
          ∈ ((r0 :: rs).map (fun q => q.customer_id)).dedup :=
        List.mem_dedup.mpr (List.mem_map_of_mem _ hr)
      exact ((List.perm_insertionSort _ _).mem_iff).mpr hm
    · intro r hr hrm en hen hc
      have h := rfmEntries_mem hen
      rw [h.2.1, hc, maxTs_custRows_eq hr hrm, Nat.sub_self, Nat.zero_div]

/-- Witness for C3: in the example view, customer 1 holds the most recent
purchase and the corresponding RFM record has recency 0. -/
theorem create_rfm_analysis_spec_witness :
    (RfmRec.mk 1 0 2 50 1).recency = 0 := by
  have h := create_rfm_analysis_spec exRows (by decide)
  exact h.2.2 exR3 (by decide) (by decide) (RfmRec.mk 1 0 2 50 1)
    (by decide) (by decide)

/-- Rows used to refute the first-seen labelling claim: customer 2
appears in the view before customer 1. -/
def cexR1 : Row := ⟨1, 0, "delivered", 2, 1, 1, 1, 10⟩

def cexR2 : Row := ⟨2, 86400, "delivered", 1, 1, 1, 1, 20⟩

def cexRows : List Row := [cexR1, cexR2]

/-- C8 counterexample: in a view listing customer 2 before customer 1,
the `numeric_id` labels do not follow the first-seen order of distinct
customer identifiers (the grouped frame is sorted by key, so customer 2
gets label 2, while first-seen order would give it label 1). -/
theorem rfm_numeric_id_not_first_seen :
    ¬ (∀ en ∈ create_rfm_analysis cexRows,
        en.numeric_id =
          (firstSeen (cexRows.map (fun r => r.customer_id))).indexOf
            en.customer_id + 1) := by decide

theorem rfmEntries_numeric (rows : List Row) (now : Nat) :
    ∀ (i : Nat) (cs : List Nat),
      (rfmEntries rows now i cs).map (fun en => en.numeric_id) =
        List.range' i cs.length := by
  intro i cs
  induction cs generalizing i with
  | nil => rfl
  | cons c t ih =>
      simp only [rfmEntries, List.map_cons, List.length_cons,
        List.range'_succ, ih]

theorem rfmEntries_ids (rows : List Row) (now : Nat) :
    ∀ (i : Nat) (cs : List Nat),
      (rfmEntries rows now i cs).map (fun en => en.customer_id) = cs := by
  intro i cs
  induction cs generalizing i with
  | nil => rfl
  | cons c t ih => simp only [rfmEntries, List.map_cons, ih]

/-- C8 as amended: `numeric_id` assigns the labels 1, 2, … in order along
the returned records, which are sorted strictly ascending by customer
identifier (the grouped frame's key order, not first-seen view order);
two distinct records never share a label. -/
theorem rfm_numeric_id_sorted_dense (rows : List Row) :
    ((create_rfm_analysis rows).map (fun en => en.numeric_id)) =
      List.range' 1 (create_rfm_analysis rows).length ∧
    ((create_rfm_analysis rows).map (fun en => en.customer_id)).Pairwise
      (fun a b => a < b) ∧
    ∀ e1 ∈ create_rfm_analysis rows, ∀ e2 ∈ create_rfm_analysis rows,
      e1.numeric_id = e2.numeric_id → e1 = e2 := by
  have hnum : ∀ (l : List Row), l ≠ [] →
      (create_rfm_analysis l).map (fun en => en.numeric_id) =
        List.range' 1 (create_rfm_analysis l).length := by
    intro l hl
    match l, hl with
    | q :: qs, _ =>
      have hids := rfmEntries_ids (q :: qs) (maxTs (q :: qs)) 1
        (List.insertionSort (fun a b => a ≤ b)
          (((q :: qs).map (fun r => r.customer_id)).dedup))
      have hlen : (create_rfm_analysis (q :: qs)).length =
          (List.insertionSort (fun a b => a ≤ b)
            (((q :: qs).map (fun r => r.customer_id)).dedup)).length := by
        rw [← hids]
        exact (List.length_map _ _).symm
      rw [show create_rfm_analysis (q :: qs) = rfmEntries (q :: qs)
            (maxTs (q :: qs)) 1
            (List.insertionSort (fun a b => a ≤ b)
              (((q :: qs).map (fun r => r.customer_id)).dedup)) from rfl,
        rfmEntries_numeric]
      rw [show (rfmEntries (q :: qs) (maxTs (q :: qs)) 1
            (List.insertionSort (fun a b => a ≤ b)
              (((q :: qs).map (fun r => r.customer_id)).dedup))).length =
          (List.insertionSort (fun a b => a ≤ b)
            (((q :: qs).map (fun r => r.customer_id)).dedup)).length
          from hlen]
  by_cases hl : rows = []
  · subst hl
    refine ⟨rfl, List.Pairwise.nil, ?_⟩
    intro e1 he1
    cases he1
  · refine ⟨hnum rows hl, ?_, ?_⟩
    · match rows, hl with
      | q :: qs, _ =>
        rw [show create_rfm_analysis (q :: qs) = rfmEntries (q :: qs)
              (maxTs (q :: qs)) 1
              (List.insertionSort (fun a b => a ≤ b)
                (((q :: qs).map (fun r => r.customer_id)).dedup)) from rfl,
          rfmEntries_ids]
        have hs : (List.insertionSort (fun a b => a ≤ b)
            (((q :: qs).map (fun r => r.customer_id)).dedup)).Pairwise
            (fun a b => a ≤ b) := List.sorted_insertionSort _ _
        have hnd : (List.insertionSort (fun a b => a ≤ b)
            (((q :: qs).map (fun r => r.customer_id)).dedup)).Nodup :=
          ((List.perm_insertionSort _ _).nodup_iff).mpr (List.nodup_dedup _)
        exact (hs.and hnd).imp
          (fun hab => Nat.lt_of_le_of_ne hab.1 hab.2)
    · intro e1 he1 e2 he2 heq
      have hnd : ((create_rfm_analysis rows).map
          (fun en => en.numeric_id)).Nodup := by
        rw [hnum rows hl]
        exact List.nodup_range' _ _
      exact List.inj_on_of_nodup_map hnd he1 he2 heq

/-- Witness for C8 (amended): two equal labels in the example output do
come from the same record. -/
theorem rfm_numeric_id_sorted_dense_witness :
    (RfmRec.mk 1 0 1 20 1) = (RfmRec.mk 1 0 1 20 1) :=
  (rfm_numeric_id_sorted_dense cexRows).2.2 _ (by decide) _ (by decide)
    (by decide)

instance pairSndLeTotal : IsTotal (Nat × Int) (fun a b => a.2 ≤ b.2) :=
  ⟨fun a b => Int.le_total a.2 b.2⟩

instance pairSndLeTrans : IsTrans (Nat × Int) (fun a b => a.2 ≤ b.2) :=
  ⟨fun _ _ _ h1 h2 => le_trans h1 h2⟩

/-- C9: the per-state payment sums returned by `create_geoanalysis` are
non-decreasing in the returned order. -/
theorem create_geoanalysis_sorted (rows : List Row) :
    ((create_geoanalysis rows).map (fun p => p.2)).Pairwise
      (fun a b => a ≤ b) :=
  List.pairwise_map.mpr (List.sorted_insertionSort _ _)

end Dashboard
